import Mathlib

/-!
Verification of the finger-joint (tab/slot) edge generator and six-panel
box layout from the Box Maker script.

The source program draws, on a host CAD sketch, a "T"-shaped net of six
rectangular panels and replaces selected panel edges by rectangular
finger-joint paths.  The geometric core is the function `finger_edge`,
translated below over exact real arithmetic (the source uses floating
point; the translation uses ℝ with `Real.sqrt` for vector length).  The
parameter-table and seam-table driver code of `run` is translated over ℚ,
since it only performs field arithmetic and list bookkeeping.
-/

namespace BoxMaker

noncomputable section

/-- A planar point, source `adsk.core.Point3D` restricted to the sketch
plane (the source always passes z = 0). -/
abbrev Pt := ℝ × ℝ

/-- A planar vector, source `adsk.core.Vector3D` with z = 0. -/
abbrev Vec := ℝ × ℝ

/-- The degeneracy threshold `1e-7` used by the source
(`if Ledge <= 1e-7: return`). -/
def eps : ℝ := 1 / 10 ^ 7

/-- Vector length, source `Vector3D.length`. -/
def vlen (v : Vec) : ℝ := Real.sqrt (v.1 ^ 2 + v.2 ^ 2)

/-- Vector normalization, source `Vector3D.normalize()`.  The host method
returns a success flag and leaves the vector unchanged on failure; the
source ignores that flag.  Over ℝ, division by a zero length yields the
zero vector, i.e. a zero vector is left unchanged, matching the host
behaviour the source relies on. -/
def vnormalize (v : Vec) : Vec := (v.1 / vlen v, v.2 / vlen v)

/-- Length of the edge from `start` to `pend`: source
`dir_vec = end - start; Ledge = dir_vec.length`. -/
def edgeLen (start pend : Pt) : ℝ := vlen (pend.1 - start.1, pend.2 - start.2)

/-- Normalized edge direction: source `dir_vec.normalize()`. -/
def edgeDir (start pend : Pt) : Vec := vnormalize (pend.1 - start.1, pend.2 - start.2)

/-- Python 3 `round`: round half to even (banker's rounding), as used by
the source in `int(round(usable / TAB_W))`. -/
def pyRound (x : ℝ) : ℤ :=
  if x - ⌊x⌋ < 1 / 2 then ⌊x⌋
  else if 1 / 2 < x - ⌊x⌋ then ⌊x⌋ + 1
  else if ⌊x⌋ % 2 = 0 then ⌊x⌋ else ⌊x⌋ + 1

/-- Segment count of the source:
`n = max(1, int(round(usable / TAB_W))); if n % 2 == 0: n += 1`. -/
def segCount (usable TAB_W : ℝ) : ℕ :=
  (if max 1 (pyRound (usable / TAB_W)) % 2 = 0 then
      max 1 (pyRound (usable / TAB_W)) + 1
    else max 1 (pyRound (usable / TAB_W))).toNat

/-- Usable run length of the source:
`usable = max(1e-7, Ledge - (T if inner_fit else 0.0))`. -/
def usableOf (T Ledge : ℝ) (inner_fit : Bool) : ℝ :=
  max eps (Ledge - (if inner_fit then T else 0))

/-- Segment pitch of the source: `pitch = usable / n`. -/
def pitchOf (TAB_W T Ledge : ℝ) (inner_fit : Bool) : ℝ :=
  usableOf T Ledge inner_fit / (segCount (usableOf T Ledge inner_fit) TAB_W : ℝ)

/-- Half pitch of the source: `half = pitch * 0.5`. -/
def halfOf (TAB_W T Ledge : ℝ) (inner_fit : Bool) : ℝ :=
  pitchOf TAB_W T Ledge inner_fit * (1 / 2)

/-- One finger segment: the four points produced by one iteration of the
source loop (`s1`, `bump`, `s2`, `back` drawn from `cur`), together with
the polarity flag `is_tab` of that iteration. -/
structure FingerSeg where
  cur : Pt
  s1 : Pt
  bump : Pt
  s2 : Pt
  back : Pt
  is_tab : Bool

instance : Inhabited FingerSeg := ⟨⟨(0, 0), (0, 0), (0, 0), (0, 0), (0, 0), false⟩⟩

/-- A sketch line, source `sketchLines.addByTwoPoints` plus the
`isConstruction` flag that excludes a line from profile detection. -/
structure SkLine where
  a : Pt
  b : Pt
  isConstruction : Bool

/-- Result of one `finger_edge` call: the drawn finger segments and, when
`inner_fit` shortened the run, the construction-only closing line. -/
structure FingerPath where
  segs : List FingerSeg
  tail : Option SkLine

instance : Inhabited FingerPath := ⟨⟨[], none⟩⟩

/-- Kerf width bias of segment `i`: the source computes
`is_tab = ((i % 2) == 0) == male; width_bias = K if is_tab else -K`. -/
def wbias (K : ℝ) (male : Bool) (i : ℕ) : ℝ :=
  if (i % 2 == 0) == male then K else -K

/-- Body of one iteration of the source loop, producing segment `i`
starting at `cur`:
`s1 = cur + dir*half; bump = s1 + out*(T if is_tab else -T);`
`s2 = bump + dir*(half + width_bias); back = s2 - out*(T if is_tab else -T)`. -/
def fingerSeg (dirv out : Vec) (T K half : ℝ) (male : Bool) (i : ℕ) (cur : Pt) :
    FingerSeg :=
  let s1 : Pt := (cur.1 + dirv.1 * half, cur.2 + dirv.2 * half)
  let is_tab : Bool := (i % 2 == 0) == male
  let width_bias : ℝ := if is_tab then K else -K
  let tstep : ℝ := if is_tab then T else -T
  let bump : Pt := (s1.1 + out.1 * tstep, s1.2 + out.2 * tstep)
  let s2 : Pt := (bump.1 + dirv.1 * (half + width_bias), bump.2 + dirv.2 * (half + width_bias))
  let back : Pt := (s2.1 - out.1 * tstep, s2.2 - out.2 * tstep)
  ⟨cur, s1, bump, s2, back, is_tab⟩

/-- The source loop `for i in range(n)` unrolled by remaining fuel:
`fingerSegs dirv out T K half male fuel i cur` produces the segments with
indices `i, i+1, …, i+fuel-1`, each starting where the previous one ended
(`cur = back`). -/
def fingerSegs (dirv out : Vec) (T K half : ℝ) (male : Bool) :
    ℕ → ℕ → Pt → List FingerSeg
  | 0, _, _ => []
  | fuel + 1, i, cur =>
      let sg := fingerSeg dirv out T K half male i cur
      sg :: fingerSegs dirv out T K half male fuel (i + 1) sg.back

/-- The point where the walk ends: the final value of `cur` after the
source loop (the `back` of the last segment, or the start for an empty
list). -/
def chainEnd : Pt → List FingerSeg → Pt
  | p, [] => p
  | _, sg :: rest => chainEnd sg.back rest

/-- Total baseline advance of `fuel` segments starting at index `i`:
each iteration advances `half + (half + width_bias)` along the edge
direction. -/
def advSum (K half : ℝ) (male : Bool) : ℕ → ℕ → ℝ
  | 0, _ => 0
  | fuel + 1, i => (2 * half + wbias K male i) + advSum K half male fuel (i + 1)

/-- The finger-joint edge generator, translated line by line from the
source `finger_edge(start, end, out_vec, male, inner_fit)`.  The closure
variables `TAB_W` (nominal tab width), `T` (material thickness) and `K`
(kerf) are passed explicitly.  A degenerate edge returns the empty path;
the outward vector is normalized with the failure semantics of
`vnormalize`; with `inner_fit` a construction-only closing line is added
from the final walked point to `end`. -/
def finger_edge (TAB_W T K : ℝ) (start pend : Pt) (out_vec : Vec)
    (male inner_fit : Bool) : FingerPath :=
  if edgeLen start pend ≤ eps then ⟨[], none⟩
  else
    let dirv := edgeDir start pend
    let out := vnormalize out_vec
    let n := segCount (usableOf T (edgeLen start pend) inner_fit) TAB_W
    let half := halfOf TAB_W T (edgeLen start pend) inner_fit
    let segs := fingerSegs dirv out T K half male n 0 start
    ⟨segs, if inner_fit then some ⟨chainEnd start segs, pend, true⟩ else none⟩

/-- First emitted point of a path: the start point of the first drawn
line (`cur` of the first segment). -/
def firstEmitted (p : FingerPath) : Pt :=
  match p.segs with
  | [] => (0, 0)
  | sg :: _ => sg.cur

/-- Last emitted point of a path: the end point of the last drawn
non-construction line (`back` of the last segment). -/
def lastEmitted (p : FingerPath) : Pt :=
  match p.segs.getLast? with
  | none => (0, 0)
  | some sg => sg.back

/-- One pending edge-generator invocation of the driver (`replace_edge`
reads the edge's endpoints and calls `finger_edge`). -/
structure RCall where
  pstart : Pt
  pend : Pt
  out_vec : Vec
  male : Bool
  inner_fit : Bool

instance : Inhabited RCall := ⟨⟨(0, 0), (0, 0), (0, 0), false, false⟩⟩

/-- Sequential processing of a list of edge calls, as the driver performs
one `finger_edge` call after another; no call aborts the following
ones. -/
def processEdges (TAB_W T K : ℝ) (calls : List RCall) : List FingerPath :=
  calls.map fun c => finger_edge TAB_W T K c.pstart c.pend c.out_vec c.male c.inner_fit

end

/-! ### Panel layout and seam table of `run` (over ℚ) -/

/-- A planar point or vector of the layout driver, over ℚ (the driver
only performs field arithmetic on the box parameters). -/
abbrev Q2 := ℚ × ℚ

/-- The argument record of one `replace_edge`/`finger_edge` invocation of
the driver: edge endpoints, outward vector, polarity and inner-fit flag. -/
structure EdgeCall where
  pstart : Q2
  pend : Q2
  out : Q2
  male : Bool
  inner_fit : Bool
deriving DecidableEq

instance : Inhabited EdgeCall := ⟨⟨(0, 0), (0, 0), (0, 0), false, false⟩⟩

/-- The four lines of `panel_rect(x0, y0, w, h)` in source order
bottom, right, top, left, each as its (start, end) point pair. -/
def panel_rect (x0 y0 w h : ℚ) : List (Q2 × Q2) :=
  [ ((x0, y0), (x0 + w, y0)),
    ((x0 + w, y0), (x0 + w, y0 + h)),
    ((x0 + w, y0 + h), (x0, y0 + h)),
    ((x0, y0 + h), (x0, y0)) ]

/-- `replace_edge(panel, edge_index, out_vec, male, inner_fit)`: reads the
indexed line's endpoints and records the resulting generator call. -/
def replace_call (panel : List (Q2 × Q2)) (idx : ℕ) (out : Q2)
    (male inner_fit : Bool) : EdgeCall :=
  let line := panel.getD idx ((0, 0), (0, 0))
  ⟨line.1, line.2, out, male, inner_fit⟩

/-- The outward normal of edge `idx` of a `panel_rect` rectangle
(bottom, right, top, left). -/
def rectOutwardNormal (idx : ℕ) : Q2 :=
  [((0 : ℚ), (-1 : ℚ)), (1, 0), (0, 1), (-1, 0)].getD idx (0, 0)

/-- The twelve seams of `run`, in source order, each as the pair of
`replace_edge` calls the source issues for its two sides: the four
vertical ring seams front-right, right-back, back-left, left-front, then
the four top attachments and the four bottom attachments.  Panel
placement follows the source's T-net coordinates. -/
def boxSeams (L W H gap : ℚ) : List (EdgeCall × EdgeCall) :=
  let xFront := W + gap
  let yFront := H + gap
  let xRight := xFront + L + gap
  let xBack := xRight + W + gap
  let yTop := yFront + H + gap
  let front := panel_rect xFront yFront L H
  let leftp := panel_rect 0 yFront W H
  let rightp := panel_rect xRight yFront W H
  let back := panel_rect xBack yFront L H
  let top := panel_rect xFront yTop L H
  let bottom := panel_rect xFront 0 L H
  let up : Q2 := (0, 1)
  let down : Q2 := (0, -1)
  let vecR : Q2 := (1, 0)
  let vecL : Q2 := (-1, 0)
  [ (replace_call front 1 vecR true false, replace_call rightp 3 vecL false true),
    (replace_call rightp 1 vecR true false, replace_call back 3 vecL false true),
    (replace_call back 1 vecR true false, replace_call leftp 3 vecL false true),
    (replace_call leftp 1 vecR true false, replace_call front 3 vecL false true),
    (replace_call top 0 up true true, replace_call front 2 down false false),
    (replace_call top 1 vecR true true, replace_call rightp 2 up false false),
    (replace_call top 2 up true true, replace_call back 0 down false false),
    (replace_call top 3 vecL true true, replace_call leftp 2 up false false),
    (replace_call bottom 2 up true true, replace_call front 0 up false false),
    (replace_call bottom 1 vecR true true, replace_call rightp 0 up false false),
    (replace_call bottom 0 down true true, replace_call back 2 up false false),
    (replace_call bottom 3 vecL true true, replace_call leftp 0 up false false) ]

/-- The `k`-th seam of the driver (0-indexed in source order). -/
def seamAt (L W H gap : ℚ) (k : ℕ) : EdgeCall × EdgeCall :=
  (boxSeams L W H gap).getD k default

/-- Two vectors are anti-parallel: zero cross product and negative dot
product.  For nonzero vectors this is equivalent to their normalized
forms summing to the zero vector. -/
def antiParallel (u v : Q2) : Prop :=
  u.1 * v.2 - u.2 * v.1 = 0 ∧ u.1 * v.1 + u.2 * v.2 < 0

instance (u v : Q2) : Decidable (antiParallel u v) := by
  unfold antiParallel; infer_instance

/-- Properties the claimed fixed table assigns to one vertical ring seam:
the leading panel's edge is vertical and generated male, with the leading
panel's outward edge normal and no inner fit; the facing panel's edge is
generated female, with the opposite (inward, toward the leading panel)
vector and inner fit. -/
def ringSeamOk (s : EdgeCall × EdgeCall) : Prop :=
  s.1.male = true ∧ s.1.out = rectOutwardNormal 1 ∧ s.1.inner_fit = false ∧
  s.1.pstart.1 = s.1.pend.1 ∧
  s.2.male = false ∧ s.2.out = (-s.1.out.1, -s.1.out.2) ∧ s.2.inner_fit = true

/-- Properties the claimed fixed table assigns to one top/bottom
attachment: the top/bottom panel's edge is male with inner fit, the side
panel's facing edge is female without inner fit. -/
def capSeamOk (s : EdgeCall × EdgeCall) : Prop :=
  s.1.male = true ∧ s.1.inner_fit = true ∧ s.2.male = false ∧ s.2.inner_fit = false

/-! ### Parameter lookup of `run` (`get_or_create_len`) -/

/-- The design's user-parameter collection, as the association list of
(name, value) pairs in creation order; values are in the host's internal
unit (cm). -/
abbrev ParamStore := List (String × ℚ)

/-- `design.userParameters.itemByName(n)`: first value stored under the
name, if any. -/
def itemByName : ParamStore → String → Option ℚ
  | [], _ => none
  | (k, v) :: rest, n => if k = n then some v else itemByName rest n

/-- The source loop `for n in names: p = itemByName(n); if p: return …`:
the first name of the list present in the store, with its value. -/
def find_first (store : ParamStore) : List String → Option (ℚ × String)
  | [] => none
  | n :: rest =>
      match itemByName store n with
      | some v => some (v, n)
      | none => find_first store rest

/-- `mm_to_internal`: Fusion stores lengths internally in cm, so a value
of x mm reads back as x/10. -/
def mm_to_internal (x : ℚ) : ℚ := x / 10

/-- `get_or_create_len(names, default_mm, comment)`: return the value and
name of the first existing parameter among `names`; otherwise create a
parameter named `names[0]` with the default (in mm) and return its
internal value, the name, and the extended store. -/
def get_or_create_len (store : ParamStore) (names : List String) (default_mm : ℚ) :
    ℚ × String × ParamStore :=
  match find_first store names with
  | some (v, n) => (v, n, store)
  | none =>
      (mm_to_internal default_mm, names.headD "",
        store ++ [(names.headD "", mm_to_internal default_mm)])

/-- `NAME_CHOICES["Length"]`. -/
def namesLength : List String := ["CtrlBoxLength", "BoxLength", "Length"]

/-- `NAME_CHOICES["Width"]`. -/
def namesWidth : List String := ["CtrlBoxWidth", "BoxWidth", "Width"]

/-- `NAME_CHOICES["Height"]`. -/
def namesHeight : List String := ["CtrnBoxHeigh", "CtrlBoxHeight", "BoxHeight", "Height"]

/-- `NAME_CHOICES["Thickness"]`. -/
def namesThickness : List String := ["BoardThickness", "MaterialThickness", "Thickness"]

/-- `NAME_CHOICES["Kerf"]`. -/
def namesKerf : List String := ["Kerf", "LaserKerf"]

/-- The values, chosen parameter names and final parameter store produced
by the five `get_or_create_len` calls of `run`. -/
structure RunResult where
  L : ℚ
  W : ℚ
  H : ℚ
  T : ℚ
  K : ℚ
  Lname : String
  Wname : String
  Hname : String
  Tname : String
  Kname : String
  store : ParamStore

/-- The parameter-reading phase of `run`: the five sequential
`get_or_create_len` calls with the source's alias tables and defaults
(Length=100, Width=60, Height=60, Thickness=3, Kerf=0.10, in mm). -/
def runParams (s0 : ParamStore) : RunResult :=
  let rL := get_or_create_len s0 namesLength 100
  let rW := get_or_create_len rL.2.2 namesWidth 60
  let rH := get_or_create_len rW.2.2 namesHeight 60
  let rT := get_or_create_len rH.2.2 namesThickness 3
  let rK := get_or_create_len rT.2.2 namesKerf (1 / 10)
  ⟨rL.1, rW.1, rH.1, rT.1, rK.1, rL.2.1, rW.2.1, rH.2.1, rT.2.1, rK.2.1, rK.2.2⟩

/-- The six panel rectangles of the T-net, each as (x0, y0, w, h), in
source order front, left, right, back, top, bottom. -/
def boxPanels (L W H gap : ℚ) : List (ℚ × ℚ × ℚ × ℚ) :=
  let xFront := W + gap
  let yFront := H + gap
  let xRight := xFront + L + gap
  let xBack := xRight + W + gap
  let yTop := yFront + H + gap
  [ (xFront, yFront, L, H), (0, yFront, W, H), (xRight, yFront, W, H),
    (xBack, yFront, L, H), (xFront, yTop, L, H), (xFront, 0, L, H) ]

/-- The panel rectangles produced by a run: the source lays the panels
out from the read parameters with the fixed gap `mm_to_internal 3`. -/
def runPanels (r : RunResult) : List (ℚ × ℚ × ℚ × ℚ) :=
  boxPanels r.L r.W r.H (mm_to_internal 3)

/-- Alias table of the five parameter keys, indexed Length, Width,
Height, Thickness, Kerf. -/
def keyAliases : Fin 5 → List String
  | 0 => namesLength
  | 1 => namesWidth
  | 2 => namesHeight
  | 3 => namesThickness
  | 4 => namesKerf

/-- Documented default (in mm) of each parameter key. -/
def keyDefault : Fin 5 → ℚ
  | 0 => 100
  | 1 => 60
  | 2 => 60
  | 3 => 3
  | 4 => 1 / 10

/-- The value a run read for each parameter key. -/
def keyValue : Fin 5 → RunResult → ℚ
  | 0 => RunResult.L
  | 1 => RunResult.W
  | 2 => RunResult.H
  | 3 => RunResult.T
  | 4 => RunResult.K

/-- No name of `names` is present in the store `t`. -/
def noAlias (t : ParamStore) (names : List String) : Prop :=
  ∀ m ∈ names, itemByName t m = none

/-- The parameter store after the Length read of `run`. -/
def store1 (s : ParamStore) : ParamStore := (get_or_create_len s namesLength 100).2.2

/-- The parameter store after the Width read of `run`. -/
def store2 (s : ParamStore) : ParamStore := (get_or_create_len (store1 s) namesWidth 60).2.2

/-- The parameter store after the Height read of `run`. -/
def store3 (s : ParamStore) : ParamStore := (get_or_create_len (store2 s) namesHeight 60).2.2

/-- The parameter store after the Thickness read of `run`. -/
def store4 (s : ParamStore) : ParamStore :=
  (get_or_create_len (store3 s) namesThickness 3).2.2

/-- The parameter store after the Kerf read of `run`, i.e. at the end of the
parameter phase. -/
def store5 (s : ParamStore) : ParamStore :=
  (get_or_create_len (store4 s) namesKerf (1 / 10)).2.2

/-! ### Basic geometry lemmas -/

theorem eps_pos : (0 : ℝ) < eps := by norm_num [eps]

theorem vlen_x (a : ℝ) : vlen (a, 0) = |a| := by
  simp [vlen, Real.sqrt_sq_eq_abs]

theorem vlen_nonneg (v : Vec) : 0 ≤ vlen v := Real.sqrt_nonneg _

theorem edgeLen_horiz (x y a : ℝ) (h : 0 ≤ a) : edgeLen (x, y) (x + a, y) = a := by
  simp [edgeLen, vlen_x, abs_of_nonneg h]

theorem vnormalize_x (a : ℝ) (h : 0 < a) : vnormalize (a, 0) = (1, 0) := by
  simp [vnormalize, vlen_x, abs_of_pos h, div_self (ne_of_gt h)]

theorem fingerSegs_length (dirv out : Vec) (T K half : ℝ) (male : Bool) :
    ∀ fuel i cur, (fingerSegs dirv out T K half male fuel i cur).length = fuel := by
  intro fuel
  induction fuel with
  | zero => intro i cur; rfl
  | succ n ih => intro i cur; simp [fingerSegs, ih]

theorem segCount_pos (usable TAB_W : ℝ) : 1 ≤ segCount usable TAB_W := by
  unfold segCount
  have h1 : (1 : ℤ) ≤ max 1 (pyRound (usable / TAB_W)) := le_max_left _ _
  split <;> omega

theorem segCount_odd (usable TAB_W : ℝ) : segCount usable TAB_W % 2 = 1 := by
  unfold segCount
  have h1 : (1 : ℤ) ≤ max 1 (pyRound (usable / TAB_W)) := le_max_left _ _
  split <;> omega

theorem finger_edge_degenerate (TAB_W T K : ℝ) (s e : Pt) (ov : Vec)
    (male inner_fit : Bool) (h : edgeLen s e ≤ eps) :
    finger_edge TAB_W T K s e ov male inner_fit = ⟨[], none⟩ := by
  rw [finger_edge, if_pos h]

theorem finger_edge_segs (TAB_W T K : ℝ) (s e : Pt) (ov : Vec)
    (male inner_fit : Bool) (h : eps < edgeLen s e) :
    (finger_edge TAB_W T K s e ov male inner_fit).segs =
      fingerSegs (edgeDir s e) (vnormalize ov) T K
        (halfOf TAB_W T (edgeLen s e) inner_fit) male
        (segCount (usableOf T (edgeLen s e) inner_fit) TAB_W) 0 s := by
  rw [finger_edge, if_neg (not_le.mpr h)]

theorem finger_edge_tail (TAB_W T K : ℝ) (s e : Pt) (ov : Vec)
    (male inner_fit : Bool) (h : eps < edgeLen s e) :
    (finger_edge TAB_W T K s e ov male inner_fit).tail =
      (if inner_fit then
        some ⟨chainEnd s ((finger_edge TAB_W T K s e ov male inner_fit).segs), e, true⟩
       else none) := by
  rw [finger_edge, if_neg (not_le.mpr h)]

/-! ### Structure of the generated segments -/

theorem fingerSeg_is_tab (dirv out : Vec) (T K half : ℝ) (male : Bool) (i : ℕ) (cur : Pt) :
    (fingerSeg dirv out T K half male i cur).is_tab = ((i % 2 == 0) == male) := rfl

theorem fingerSeg_cur (dirv out : Vec) (T K half : ℝ) (male : Bool) (i : ℕ) (cur : Pt) :
    (fingerSeg dirv out T K half male i cur).cur = cur := rfl

theorem fingerSeg_s1 (dirv out : Vec) (T K half : ℝ) (male : Bool) (i : ℕ) (cur : Pt) :
    (fingerSeg dirv out T K half male i cur).s1 =
      (cur.1 + dirv.1 * half, cur.2 + dirv.2 * half) := rfl

theorem fingerSeg_s2 (dirv out : Vec) (T K half : ℝ) (male : Bool) (i : ℕ) (cur : Pt) :
    (fingerSeg dirv out T K half male i cur).s2 =
      ((fingerSeg dirv out T K half male i cur).bump.1 +
          dirv.1 * (half + (if (fingerSeg dirv out T K half male i cur).is_tab then K else -K)),
        (fingerSeg dirv out T K half male i cur).bump.2 +
          dirv.2 * (half + (if (fingerSeg dirv out T K half male i cur).is_tab then K else -K))) := rfl

theorem fingerSeg_back (dirv out : Vec) (T K half : ℝ) (male : Bool) (i : ℕ) (cur : Pt) :
    (fingerSeg dirv out T K half male i cur).back =
      (cur.1 + dirv.1 * (2 * half + wbias K male i),
       cur.2 + dirv.2 * (2 * half + wbias K male i)) := by
  by_cases h : ((i % 2 == 0) == male) <;>
    simp only [fingerSeg, wbias, h, if_true, if_false, Prod.mk.injEq] <;>
    constructor <;> ring

theorem mem_fingerSegs (dirv out : Vec) (T K half : ℝ) (male : Bool) :
    ∀ fuel i cur sg, sg ∈ fingerSegs dirv out T K half male fuel i cur →
      ∃ j c, sg = fingerSeg dirv out T K half male j c := by
  intro fuel
  induction fuel with
  | zero => intro i cur sg h; simp [fingerSegs] at h
  | succ n ih =>
      intro i cur sg h
      rw [fingerSegs] at h
      rcases List.mem_cons.mp h with h1 | h1
      · exact ⟨i, cur, h1⟩
      · exact ih _ _ _ h1

theorem fingerSegs_getD_is_tab (dirv out : Vec) (T K half : ℝ) (male : Bool) :
    ∀ fuel i j cur, j < fuel →
      ((fingerSegs dirv out T K half male fuel i cur).getD j default).is_tab =
        (((i + j) % 2 == 0) == male) := by
  intro fuel
  induction fuel with
  | zero => intro i j cur h; omega
  | succ n ih =>
      intro i j cur h
      rw [fingerSegs]
      cases j with
      | zero => simpa using fingerSeg_is_tab dirv out T K half male i cur
      | succ m =>
          have hm : m < n := by omega
          have := ih (i + 1) m (fingerSeg dirv out T K half male i cur).back hm
          simpa [List.getD, Nat.add_assoc, Nat.add_comm 1 m] using this

theorem wbias_succ (K : ℝ) (male : Bool) (i : ℕ) :
    wbias K male (i + 1) = -wbias K male i := by
  rcases Nat.mod_two_eq_zero_or_one i with h | h
  · have h2 : (i + 1) % 2 = 1 := by omega
    cases male <;> simp [wbias, h, h2]
  · have h2 : (i + 1) % 2 = 0 := by omega
    cases male <;> simp [wbias, h, h2]

theorem wbias_zero (K : ℝ) (male : Bool) :
    wbias K male 0 = (if male then K else -K) := by
  cases male <;> simp [wbias]

theorem chainEnd_fingerSegs (dirv out : Vec) (T K half : ℝ) (male : Bool) :
    ∀ fuel i cur, chainEnd cur (fingerSegs dirv out T K half male fuel i cur) =
      (cur.1 + dirv.1 * advSum K half male fuel i,
       cur.2 + dirv.2 * advSum K half male fuel i) := by
  intro fuel
  induction fuel with
  | zero => intro i cur; simp [fingerSegs, chainEnd, advSum]
  | succ n ih =>
      intro i cur
      rw [fingerSegs]
      show chainEnd (fingerSeg dirv out T K half male i cur).back _ = _
      rw [ih (i + 1) (fingerSeg dirv out T K half male i cur).back, fingerSeg_back]
      rw [advSum]
      dsimp only
      simp only [Prod.mk.injEq]
      constructor <;> ring

theorem advSum_closed (K half : ℝ) (male : Bool) :
    ∀ fuel i, advSum K half male fuel i =
      fuel * (2 * half) + (if fuel % 2 = 0 then 0 else wbias K male i) := by
  intro fuel
  induction fuel with
  | zero => intro i; simp [advSum]
  | succ n ih =>
      intro i
      rw [advSum, ih (i + 1), wbias_succ]
      rcases Nat.mod_two_eq_zero_or_one n with h | h
      · have h2 : (n + 1) % 2 = 1 := by omega
        rw [h2, h]
        push_cast
        ring
      · have h2 : (n + 1) % 2 = 0 := by omega
        rw [h2, h]
        push_cast
        ring

/-! ### Endpoints of the walk -/

theorem chainEnd_eq_getLast (l : List FingerSeg) (p : Pt) :
    chainEnd p l = (l.getLast?).elim p (fun sg => sg.back) := by
  induction l generalizing p with
  | nil => rfl
  | cons sg rest ih =>
      rw [chainEnd, ih]
      cases rest with
      | nil => rfl
      | cons a as =>
          rw [List.getLast?_cons_cons]
          cases h : (a :: as).getLast? with
          | none => simp at h
          | some x => simp [h]

theorem lastEmitted_eq_chainEnd (p : FingerPath) (q : Pt) (h : p.segs ≠ []) :
    lastEmitted p = chainEnd q p.segs := by
  rw [chainEnd_eq_getLast]
  cases hh : p.segs.getLast? with
  | none => exact absurd (by simpa using hh) h
  | some x => simp [lastEmitted, hh]

theorem finger_edge_segs_length (TAB_W T K : ℝ) (s e : Pt) (ov : Vec)
    (male inner_fit : Bool) (h : eps < edgeLen s e) :
    (finger_edge TAB_W T K s e ov male inner_fit).segs.length =
      segCount (usableOf T (edgeLen s e) inner_fit) TAB_W := by
  rw [finger_edge_segs TAB_W T K s e ov male inner_fit h, fingerSegs_length]

theorem finger_edge_segs_ne_nil (TAB_W T K : ℝ) (s e : Pt) (ov : Vec)
    (male inner_fit : Bool) (h : eps < edgeLen s e) :
    (finger_edge TAB_W T K s e ov male inner_fit).segs ≠ [] := by
  intro hnil
  have hl := finger_edge_segs_length TAB_W T K s e ov male inner_fit h
  rw [hnil] at hl
  have := segCount_pos (usableOf T (edgeLen s e) inner_fit) TAB_W
  simp at hl
  omega

theorem n_mul_two_half (TAB_W T L : ℝ) (inner_fit : Bool) :
    (segCount (usableOf T L inner_fit) TAB_W : ℝ) * (2 * halfOf TAB_W T L inner_fit) =
      usableOf T L inner_fit := by
  have h1 := segCount_pos (usableOf T L inner_fit) TAB_W
  have hn : (segCount (usableOf T L inner_fit) TAB_W : ℝ) ≠ 0 :=
    Nat.cast_ne_zero.mpr (by omega)
  rw [halfOf, pitchOf]
  field_simp
  ring

theorem firstEmitted_finger (TAB_W T K : ℝ) (s e : Pt) (ov : Vec)
    (male inner_fit : Bool) (h : eps < edgeLen s e) :
    firstEmitted (finger_edge TAB_W T K s e ov male inner_fit) = s := by
  obtain ⟨m, hm⟩ : ∃ m, segCount (usableOf T (edgeLen s e) inner_fit) TAB_W = m + 1 :=
    ⟨segCount (usableOf T (edgeLen s e) inner_fit) TAB_W - 1, by
      have := segCount_pos (usableOf T (edgeLen s e) inner_fit) TAB_W; omega⟩
  rw [firstEmitted, finger_edge_segs TAB_W T K s e ov male inner_fit h, hm, fingerSegs]
  rfl

theorem lastEmitted_finger (TAB_W T K : ℝ) (s e : Pt) (ov : Vec)
    (male inner_fit : Bool) (h : eps < edgeLen s e) :
    lastEmitted (finger_edge TAB_W T K s e ov male inner_fit) =
      (s.1 + (edgeDir s e).1 * (usableOf T (edgeLen s e) inner_fit + (if male then K else -K)),
       s.2 + (edgeDir s e).2 * (usableOf T (edgeLen s e) inner_fit + (if male then K else -K))) := by
  rw [lastEmitted_eq_chainEnd _ s (finger_edge_segs_ne_nil TAB_W T K s e ov male inner_fit h),
    finger_edge_segs TAB_W T K s e ov male inner_fit h,
    chainEnd_fingerSegs, advSum_closed,
    segCount_odd (usableOf T (edgeLen s e) inner_fit) TAB_W]
  rw [if_neg Nat.one_ne_zero, wbias_zero, n_mul_two_half]

theorem edge_endpoint (s e : Pt) (h : 0 < edgeLen s e) :
    (s.1 + (edgeDir s e).1 * edgeLen s e, s.2 + (edgeDir s e).2 * edgeLen s e) = e := by
  have hv : edgeLen s e ≠ 0 := ne_of_gt h
  rw [edgeLen] at hv ⊢
  rw [edgeDir, vnormalize]
  dsimp only
  rw [Prod.mk.injEq]
  constructor <;> field_simp

theorem usableOf_no_inner (T L : ℝ) (h : eps ≤ L) : usableOf T L false = L := by
  rw [usableOf]
  simp [max_eq_right h]

theorem fingerSegs_back_on_line (dirv out : Vec) (T K half : ℝ) (male : Bool) (s : Pt) :
    ∀ fuel i cur t0, cur = (s.1 + t0 * dirv.1, s.2 + t0 * dirv.2) →
      ∀ sg ∈ fingerSegs dirv out T K half male fuel i cur,
        ∃ t, sg.back = (s.1 + t * dirv.1, s.2 + t * dirv.2) := by
  intro fuel
  induction fuel with
  | zero => intro i cur t0 hc sg hm; simp [fingerSegs] at hm
  | succ n ih =>
      intro i cur t0 hc sg hm
      rw [fingerSegs] at hm
      have hback : (fingerSeg dirv out T K half male i cur).back =
          (s.1 + (t0 + (2 * half + wbias K male i)) * dirv.1,
           s.2 + (t0 + (2 * half + wbias K male i)) * dirv.2) := by
        rw [fingerSeg_back, hc]
        dsimp only
        rw [Prod.mk.injEq]
        constructor <;> ring
      rcases List.mem_cons.mp hm with h1 | h1
      · exact ⟨t0 + (2 * half + wbias K male i), by rw [h1, hback]⟩
      · exact ih (i + 1) _ _ hback sg h1

/-! ### More helper lemmas -/

theorem edgeLen_0x (a : ℝ) : edgeLen (0, 0) (a, 0) = |a| := by
  simp [edgeLen, vlen_x]

theorem two_halfOf (TAB_W T L : ℝ) (inner_fit : Bool) :
    2 * halfOf TAB_W T L inner_fit = pitchOf TAB_W T L inner_fit := by
  rw [halfOf]; ring

theorem fingerSeg_bump (dirv out : Vec) (T K half : ℝ) (male : Bool) (i : ℕ) (cur : Pt) :
    (fingerSeg dirv out T K half male i cur).bump =
      ((fingerSeg dirv out T K half male i cur).s1.1 +
          out.1 * (if (fingerSeg dirv out T K half male i cur).is_tab then T else -T),
        (fingerSeg dirv out T K half male i cur).s1.2 +
          out.2 * (if (fingerSeg dirv out T K half male i cur).is_tab then T else -T)) := rfl

theorem getD_map {α β : Type} (f : α → β) (l : List α) :
    ∀ k, k < l.length → ∀ d1 d2, (l.map f).getD k d1 = f (l.getD k d2) := by
  induction l with
  | nil => intro k hk; simp at hk
  | cons a as ih =>
      intro k hk d1 d2
      cases k with
      | zero => rfl
      | succ m =>
          simp only [List.map_cons, List.getD_cons_succ]
          exact ih m (by simpa using hk) d1 d2

/-! ### Claims C1, C3, C4, C10 -/

/-- Claim C1: for every edge whose length exceeds the degeneracy threshold and
every parameter set with positive nominal tab width, the generator emits
exactly n segments, where n is round(usable / nominalTabWidth) (Python's
half-to-even `round`, as the source calls it), clamped to a minimum of 1 and
then incremented by 1 if even; consequently n is always odd and at least 1. -/
theorem C1_segment_count (TAB_W T K : ℝ) (s e : Pt) (ov : Vec) (male inner_fit : Bool)
    (hL : eps < edgeLen s e) (hW : 0 < TAB_W) :
    (finger_edge TAB_W T K s e ov male inner_fit).segs.length =
      (if max 1 (pyRound (usableOf T (edgeLen s e) inner_fit / TAB_W)) % 2 = 0 then
          max 1 (pyRound (usableOf T (edgeLen s e) inner_fit / TAB_W)) + 1
        else max 1 (pyRound (usableOf T (edgeLen s e) inner_fit / TAB_W))).toNat ∧
    Odd (finger_edge TAB_W T K s e ov male inner_fit).segs.length ∧
    1 ≤ (finger_edge TAB_W T K s e ov male inner_fit).segs.length := by
  have hlen := finger_edge_segs_length TAB_W T K s e ov male inner_fit hL
  refine ⟨by rw [hlen]; rfl, ?_, by rw [hlen]; exact segCount_pos _ _⟩
  rw [hlen, Nat.odd_iff]
  exact segCount_odd _ _

/-- Witness for C1 at a concrete input. -/
theorem C1_segment_count_witness :
    eps < edgeLen ((0 : ℝ), (0 : ℝ)) (10, 0) ∧ (0 : ℝ) < 3 ∧
      Odd (finger_edge 3 1 0 ((0 : ℝ), (0 : ℝ)) (10, 0) (0, 1) true false).segs.length ∧
      1 ≤ (finger_edge 3 1 0 ((0 : ℝ), (0 : ℝ)) (10, 0) (0, 1) true false).segs.length := by
  have h1 : eps < edgeLen ((0 : ℝ), (0 : ℝ)) (10, 0) := by
    rw [edgeLen_0x]; norm_num [eps]
  have h2 : (0 : ℝ) < 3 := by norm_num
  exact ⟨h1, h2, (C1_segment_count 3 1 0 _ _ _ true false h1 h2).2.1,
    (C1_segment_count 3 1 0 _ _ _ true false h1 h2).2.2⟩

/-- Claim C3: for every non-degenerate edge, each generated segment advances
`half` along the edge direction to `s1`, then `half + widthBias` from `bump`
to `s2` with widthBias = +kerf for tabs and -kerf for slots, so the total
baseline advance of the segment (`back` minus `cur`) is pitch + kerf for a
tab and pitch - kerf for a slot. -/
theorem C3_kerf_bias (TAB_W T K : ℝ) (s e : Pt) (ov : Vec) (male inner_fit : Bool)
    (h : eps < edgeLen s e) :
    ∀ sg ∈ (finger_edge TAB_W T K s e ov male inner_fit).segs,
      sg.s1 = (sg.cur.1 + (edgeDir s e).1 * halfOf TAB_W T (edgeLen s e) inner_fit,
               sg.cur.2 + (edgeDir s e).2 * halfOf TAB_W T (edgeLen s e) inner_fit) ∧
      sg.s2 = (sg.bump.1 + (edgeDir s e).1 *
                 (halfOf TAB_W T (edgeLen s e) inner_fit + (if sg.is_tab then K else -K)),
               sg.bump.2 + (edgeDir s e).2 *
                 (halfOf TAB_W T (edgeLen s e) inner_fit + (if sg.is_tab then K else -K))) ∧
      sg.back = (sg.cur.1 + (edgeDir s e).1 *
                   (pitchOf TAB_W T (edgeLen s e) inner_fit + (if sg.is_tab then K else -K)),
                 sg.cur.2 + (edgeDir s e).2 *
                   (pitchOf TAB_W T (edgeLen s e) inner_fit + (if sg.is_tab then K else -K))) := by
  intro sg hm
  rw [finger_edge_segs TAB_W T K s e ov male inner_fit h] at hm
  obtain ⟨j, c, rfl⟩ := mem_fingerSegs _ _ _ _ _ _ _ _ _ _ hm
  refine ⟨rfl, fingerSeg_s2 _ _ _ _ _ _ _ _, ?_⟩
  rw [fingerSeg_back, fingerSeg_cur, fingerSeg_is_tab, ← two_halfOf, wbias]

/-- Witness for C3 at a concrete input. -/
theorem C3_kerf_bias_witness :
    eps < edgeLen ((0 : ℝ), (0 : ℝ)) (7, 0) ∧
      ∀ sg ∈ (finger_edge 2 1 (1 / 10) ((0 : ℝ), (0 : ℝ)) (7, 0) (0, 1) false false).segs,
        sg.back = (sg.cur.1 + (edgeDir ((0 : ℝ), (0 : ℝ)) ((7 : ℝ), (0 : ℝ))).1 *
                     (pitchOf 2 1 (edgeLen ((0 : ℝ), (0 : ℝ)) (7, 0)) false +
                       (if sg.is_tab then 1 / 10 else -(1 / 10))),
                   sg.cur.2 + (edgeDir ((0 : ℝ), (0 : ℝ)) ((7 : ℝ), (0 : ℝ))).2 *
                     (pitchOf 2 1 (edgeLen ((0 : ℝ), (0 : ℝ)) (7, 0)) false +
                       (if sg.is_tab then 1 / 10 else -(1 / 10)))) := by
  have h1 : eps < edgeLen ((0 : ℝ), (0 : ℝ)) (7, 0) := by
    rw [edgeLen_0x]; norm_num [eps]
  exact ⟨h1, fun sg hm => ((C3_kerf_bias 2 1 (1 / 10) _ _ _ false false h1) sg hm).2.2⟩

/-- Claim C4: for a fixed edge, outward vector, inner-fit flag and parameters,
the male and female runs have the same segment count, the polarity flag of
segment i is determined by ((i is even) == male), and the flags of the two
runs are pointwise negations. -/
theorem C4_polarity (TAB_W T K : ℝ) (s e : Pt) (ov : Vec) (inner_fit : Bool)
    (h : eps < edgeLen s e) :
    (finger_edge TAB_W T K s e ov true inner_fit).segs.length =
      (finger_edge TAB_W T K s e ov false inner_fit).segs.length ∧
    ∀ i, i < (finger_edge TAB_W T K s e ov true inner_fit).segs.length →
      ((finger_edge TAB_W T K s e ov true inner_fit).segs.getD i default).is_tab
          = ((i % 2 == 0) == true) ∧
      ((finger_edge TAB_W T K s e ov false inner_fit).segs.getD i default).is_tab
          = ((i % 2 == 0) == false) ∧
      ((finger_edge TAB_W T K s e ov true inner_fit).segs.getD i default).is_tab
          = !((finger_edge TAB_W T K s e ov false inner_fit).segs.getD i default).is_tab := by
  have hlt := finger_edge_segs_length TAB_W T K s e ov true inner_fit h
  have hlf := finger_edge_segs_length TAB_W T K s e ov false inner_fit h
  refine ⟨by rw [hlt, hlf], ?_⟩
  intro i hi
  rw [hlt] at hi
  have ht : ((finger_edge TAB_W T K s e ov true inner_fit).segs.getD i default).is_tab
      = ((i % 2 == 0) == true) := by
    rw [finger_edge_segs TAB_W T K s e ov true inner_fit h]
    simpa using fingerSegs_getD_is_tab (edgeDir s e) (vnormalize ov) T K
      (halfOf TAB_W T (edgeLen s e) inner_fit) true _ 0 i s hi
  have hf : ((finger_edge TAB_W T K s e ov false inner_fit).segs.getD i default).is_tab
      = ((i % 2 == 0) == false) := by
    rw [finger_edge_segs TAB_W T K s e ov false inner_fit h]
    simpa using fingerSegs_getD_is_tab (edgeDir s e) (vnormalize ov) T K
      (halfOf TAB_W T (edgeLen s e) inner_fit) false _ 0 i s hi
  refine ⟨ht, hf, ?_⟩
  rw [ht, hf]
  cases h2 : (i % 2 == 0) <;> simp

/-- Witness for C4 at a concrete input. -/
theorem C4_polarity_witness :
    eps < edgeLen ((0 : ℝ), (0 : ℝ)) (5, 0) ∧
      (finger_edge 2 1 (1 / 10) ((0 : ℝ), (0 : ℝ)) (5, 0) (0, 1) true false).segs.length =
        (finger_edge 2 1 (1 / 10) ((0 : ℝ), (0 : ℝ)) (5, 0) (0, 1) false false).segs.length := by
  have h1 : eps < edgeLen ((0 : ℝ), (0 : ℝ)) (5, 0) := by
    rw [edgeLen_0x]; norm_num [eps]
  exact ⟨h1, (C4_polarity 2 1 (1 / 10) _ _ _ false h1).1⟩

/-- Claim C10: for every non-degenerate edge, the `back` point of every
segment lies on the baseline line through `start` along the edge direction:
the perpendicular out-step of the segment is reversed by an equal and
opposite step before the next segment begins. -/
theorem C10_baseline_return (TAB_W T K : ℝ) (s e : Pt) (ov : Vec) (male inner_fit : Bool)
    (h : eps < edgeLen s e) :
    ∀ sg ∈ (finger_edge TAB_W T K s e ov male inner_fit).segs,
      ∃ t : ℝ, sg.back = (s.1 + t * (edgeDir s e).1, s.2 + t * (edgeDir s e).2) := by
  intro sg hm
  rw [finger_edge_segs TAB_W T K s e ov male inner_fit h] at hm
  exact fingerSegs_back_on_line (edgeDir s e) (vnormalize ov) T K
    (halfOf TAB_W T (edgeLen s e) inner_fit) male s _ 0 s 0 (by simp) sg hm

/-- Witness for C10 at a concrete input. -/
theorem C10_baseline_return_witness :
    eps < edgeLen ((0 : ℝ), (0 : ℝ)) (9, 0) ∧
      ∀ sg ∈ (finger_edge 4 1 (1 / 10) ((0 : ℝ), (0 : ℝ)) (9, 0) (0, 1) true true).segs,
        ∃ t : ℝ, sg.back = (0 + t * (edgeDir ((0 : ℝ), (0 : ℝ)) ((9 : ℝ), (0 : ℝ))).1,
          0 + t * (edgeDir ((0 : ℝ), (0 : ℝ)) ((9 : ℝ), (0 : ℝ))).2) := by
  have h1 : eps < edgeLen ((0 : ℝ), (0 : ℝ)) (9, 0) := by
    rw [edgeLen_0x]; norm_num [eps]
  exact ⟨h1, C10_baseline_return 4 1 (1 / 10) _ _ _ true true h1⟩

/-! ### Claim C2 (corrected) -/

/-- Counterexample to claim C2 as stated: for the edge from (0,0) to (1,0)
with kerf 0.1 and innerFit false, the last emitted point is (1.1, 0), which
is not within tolerance 1e-9 of the end point (1,0): the kerf biases of an
odd number of segments do not cancel. -/
theorem C2_counterexample :
    ¬ (|(lastEmitted (finger_edge 3 1 (1 / 10) ((0 : ℝ), (0 : ℝ)) (1, 0) (0, 1) true false)).1 - 1|
         ≤ 1 / 10 ^ 9 ∧
       |(lastEmitted (finger_edge 3 1 (1 / 10) ((0 : ℝ), (0 : ℝ)) (1, 0) (0, 1) true false)).2 - 0|
         ≤ 1 / 10 ^ 9) := by
  have hL : edgeLen ((0 : ℝ), (0 : ℝ)) (1, 0) = 1 := by rw [edgeLen_0x]; norm_num
  have h : eps < edgeLen ((0 : ℝ), (0 : ℝ)) (1, 0) := by rw [hL]; norm_num [eps]
  have hd : edgeDir ((0 : ℝ), (0 : ℝ)) (1, 0) = (1, 0) := by
    rw [edgeDir]
    have harg : ((1 : ℝ) - 0, (0 : ℝ) - 0) = ((1 : ℝ), (0 : ℝ)) := by norm_num
    rw [harg, vnormalize_x _ one_pos]
  have hlast := lastEmitted_finger 3 1 (1 / 10) ((0 : ℝ), (0 : ℝ)) (1, 0) (0, 1) true false h
  rw [hL, hd, usableOf_no_inner 1 1 (by norm_num [eps])] at hlast
  rintro ⟨h1, h2⟩
  rw [hlast] at h1
  norm_num at h1
  rw [abs_of_nonneg (by norm_num : (0 : ℝ) ≤ 1 / 10)] at h1
  norm_num at h1

/-- Claim C2, amended: for every non-degenerate edge, the first emitted point
equals start; when innerFit is false the last emitted point equals end
displaced by the kerf along the edge direction (+kerf if male, -kerf if
female) — so it equals end exactly only when kerf = 0, not in general within
1e-9; when innerFit is true the path is closed by a construction-only
segment whose final explicit point equals end. -/
theorem C2_endpoints (TAB_W T K : ℝ) (s e : Pt) (ov : Vec) (male inner_fit : Bool)
    (h : eps < edgeLen s e) :
    firstEmitted (finger_edge TAB_W T K s e ov male inner_fit) = s ∧
    (inner_fit = false →
      lastEmitted (finger_edge TAB_W T K s e ov male inner_fit) =
        (e.1 + (if male then K else -K) * (edgeDir s e).1,
         e.2 + (if male then K else -K) * (edgeDir s e).2)) ∧
    (inner_fit = false → K = 0 →
      lastEmitted (finger_edge TAB_W T K s e ov male inner_fit) = e) ∧
    (inner_fit = true →
      (finger_edge TAB_W T K s e ov male inner_fit).tail =
        some ⟨lastEmitted (finger_edge TAB_W T K s e ov male inner_fit), e, true⟩) := by
  have hlast : inner_fit = false →
      lastEmitted (finger_edge TAB_W T K s e ov male inner_fit) =
        (e.1 + (if male then K else -K) * (edgeDir s e).1,
         e.2 + (if male then K else -K) * (edgeDir s e).2) := by
    intro hif
    subst hif
    rw [lastEmitted_finger TAB_W T K s e ov male false h,
      usableOf_no_inner T _ (le_of_lt h)]
    have he := edge_endpoint s e (lt_trans eps_pos h)
    have he1 : s.1 + (edgeDir s e).1 * edgeLen s e = e.1 := by
      have h2 := congrArg Prod.fst he; simpa using h2
    have he2 : s.2 + (edgeDir s e).2 * edgeLen s e = e.2 := by
      have h2 := congrArg Prod.snd he; simpa using h2
    rw [Prod.mk.injEq]
    constructor
    · rw [← he1]; ring
    · rw [← he2]; ring
  refine ⟨firstEmitted_finger TAB_W T K s e ov male inner_fit h, hlast, ?_, ?_⟩
  · intro hif hK
    rw [hlast hif, hK]
    cases male <;> simp
  · intro hif
    rw [finger_edge_tail TAB_W T K s e ov male inner_fit h, if_pos hif,
      lastEmitted_eq_chainEnd _ s (finger_edge_segs_ne_nil TAB_W T K s e ov male inner_fit h)]

/-- Witness for the amended C2 at a concrete input. -/
theorem C2_endpoints_witness :
    eps < edgeLen ((0 : ℝ), (0 : ℝ)) (6, 0) ∧
      firstEmitted (finger_edge 2 1 (1 / 10) ((0 : ℝ), (0 : ℝ)) (6, 0) (0, 1) true true)
        = ((0 : ℝ), (0 : ℝ)) := by
  have h1 : eps < edgeLen ((0 : ℝ), (0 : ℝ)) (6, 0) := by
    rw [edgeLen_0x]; norm_num [eps]
  exact ⟨h1, (C2_endpoints 2 1 (1 / 10) _ _ _ true true h1).1⟩

/-! ### Claim C7 -/

/-- Claim C7: a degenerate edge (length at most the 1e-7 threshold, in
particular coincident start and end) makes the generator return the empty
path rather than raise an error, and the driver's processing of the other
edges continues unaffected: every position of the result is the generator's
output for the corresponding call. -/
theorem C7_degenerate_edge (TAB_W T K : ℝ) (calls : List RCall) (j : ℕ)
    (hj : j < calls.length)
    (hdeg : edgeLen (calls.getD j default).pstart (calls.getD j default).pend ≤ eps) :
    (processEdges TAB_W T K calls).getD j default = ⟨[], none⟩ ∧
    (processEdges TAB_W T K calls).length = calls.length ∧
    ∀ k, k < calls.length →
      (processEdges TAB_W T K calls).getD k default =
        finger_edge TAB_W T K (calls.getD k default).pstart (calls.getD k default).pend
          (calls.getD k default).out_vec (calls.getD k default).male
          (calls.getD k default).inner_fit := by
  have hmap : ∀ k, k < calls.length →
      (processEdges TAB_W T K calls).getD k default =
        finger_edge TAB_W T K (calls.getD k default).pstart (calls.getD k default).pend
          (calls.getD k default).out_vec (calls.getD k default).male
          (calls.getD k default).inner_fit := by
    intro k hk
    exact getD_map _ calls k hk default default
  refine ⟨?_, by simp [processEdges], hmap⟩
  rw [hmap j hj, finger_edge_degenerate _ _ _ _ _ _ _ _ hdeg]

/-- Witness for C7: a two-call list whose first edge is degenerate; the
degenerate call yields the empty path and the second call is still
processed. -/
theorem C7_degenerate_edge_witness :
    (0 : ℕ) < ([⟨(0, 0), (0, 0), (0, 1), true, false⟩,
        ⟨(0, 0), (8, 0), (0, 1), true, false⟩] : List RCall).length ∧
      edgeLen ((0 : ℝ), (0 : ℝ)) ((0 : ℝ), (0 : ℝ)) ≤ eps ∧
      (processEdges 2 1 (1 / 10) [⟨(0, 0), (0, 0), (0, 1), true, false⟩,
          ⟨(0, 0), (8, 0), (0, 1), true, false⟩]).getD 0 default = ⟨[], none⟩ := by
  have hdeg : edgeLen ((0 : ℝ), (0 : ℝ)) ((0 : ℝ), (0 : ℝ)) ≤ eps := by
    rw [edgeLen_0x]
    norm_num [eps]
  have hj : (0 : ℕ) < ([⟨(0, 0), (0, 0), (0, 1), true, false⟩,
      ⟨(0, 0), (8, 0), (0, 1), true, false⟩] : List RCall).length := by norm_num
  exact ⟨hj, hdeg,
    (C7_degenerate_edge 2 1 (1 / 10) _ 0 hj (by simpa [List.getD] using hdeg)).1⟩

/-! ### Claim C8 (code bug): no degenerate-outward-vector detection -/

/-- Claim C8 evaluated at the failing input: for the non-degenerate edge
(0,0)-(1,0) with the zero outward vector, the source does not fail — it
ignores the normalization failure (the zero vector is left unchanged) and
emits a full one-segment finger path whose perpendicular bump steps are
zero-length, instead of raising DegenerateVectorError and aborting. -/
theorem C8_zero_outward_no_error :
    vnormalize ((0 : ℝ), (0 : ℝ)) = ((0 : ℝ), (0 : ℝ)) ∧
    (finger_edge 12 3 (1 / 10) ((0 : ℝ), (0 : ℝ)) (1, 0) ((0 : ℝ), (0 : ℝ)) true false).segs.length
      = 1 ∧
    ∀ sg ∈ (finger_edge 12 3 (1 / 10) ((0 : ℝ), (0 : ℝ)) (1, 0)
        ((0 : ℝ), (0 : ℝ)) true false).segs, sg.bump = sg.s1 := by
  have hv : vnormalize ((0 : ℝ), (0 : ℝ)) = ((0 : ℝ), (0 : ℝ)) := by
    simp [vnormalize]
  have hL : edgeLen ((0 : ℝ), (0 : ℝ)) (1, 0) = 1 := by rw [edgeLen_0x]; norm_num
  have h : eps < edgeLen ((0 : ℝ), (0 : ℝ)) (1, 0) := by rw [hL]; norm_num [eps]
  have hfloor : ⌊(1 : ℝ) / 12⌋ = 0 := by
    rw [Int.floor_eq_zero_iff]
    constructor <;> norm_num
  have hpr : pyRound ((1 : ℝ) / 12) = 0 := by
    rw [pyRound, hfloor]
    norm_num
  have hsc : segCount (1 : ℝ) 12 = 1 := by
    rw [segCount, hpr]
    norm_num
  refine ⟨hv, ?_, ?_⟩
  · rw [finger_edge_segs_length _ _ _ _ _ _ _ _ h, hL,
      usableOf_no_inner 3 1 (by norm_num [eps]), hsc]
  · intro sg hm
    rw [finger_edge_segs _ _ _ _ _ _ _ _ h, hv] at hm
    obtain ⟨j, c, rfl⟩ := mem_fingerSegs _ _ _ _ _ _ _ _ _ _ hm
    rw [fingerSeg_bump]
    simp

/-! ### Claim C5: the fixed seam polarity table -/

/-- Claim C5: for any box parameters, the seam polarity assignment is the
claimed fixed table.  Each of the four vertical corner seams (front-right,
right-back, back-left, left-front) generates the leading panel's vertical
edge with male=true, the leading panel's outward edge normal and
innerFit=false, and the facing panel's edge with male=false, the opposite
(inward) vector and innerFit=true.  Each top/bottom attachment generates the
top/bottom panel's edge with male=true and innerFit=true and the side
panel's facing edge with male=false and innerFit=false. -/
theorem C5_seam_table (L W H gap : ℚ) :
    (ringSeamOk (seamAt L W H gap 0) ∧ ringSeamOk (seamAt L W H gap 1) ∧
     ringSeamOk (seamAt L W H gap 2) ∧ ringSeamOk (seamAt L W H gap 3)) ∧
    (capSeamOk (seamAt L W H gap 4) ∧ capSeamOk (seamAt L W H gap 5) ∧
     capSeamOk (seamAt L W H gap 6) ∧ capSeamOk (seamAt L W H gap 7) ∧
     capSeamOk (seamAt L W H gap 8) ∧ capSeamOk (seamAt L W H gap 9) ∧
     capSeamOk (seamAt L W H gap 10) ∧ capSeamOk (seamAt L W H gap 11)) := by
  constructor
  · refine ⟨?_, ?_, ?_, ?_⟩ <;>
      exact ⟨rfl, rfl, rfl, rfl, rfl, rfl, rfl⟩
  · refine ⟨?_, ?_, ?_, ?_, ?_, ?_, ?_, ?_⟩ <;>
      exact ⟨rfl, rfl, rfl, rfl⟩

/-! ### Claim C6 (corrected): seam outward vectors -/

/-- Counterexample to claim C6 as stated: at the defaults-scaled box
(L=10, W=6, H=6, gap=1), the sixth seam (top-right, source order index 5)
passes the outward vectors (1,0) and (0,1) to the generator's two sides;
these are perpendicular, not anti-parallel. -/
theorem C6_counterexample :
    ¬ antiParallel (seamAt 10 6 6 1 5).1.out (seamAt 10 6 6 1 5).2.out := by
  show ¬ antiParallel ((1 : ℚ), (0 : ℚ)) ((0 : ℚ), (1 : ℚ))
  norm_num [antiParallel]

/-- Claim C6, amended: the two outward vectors of a seam are anti-parallel
(normalized forms summing to zero) for the four vertical corner seams and
for the top-front, top-back and bottom-back attachments (source-order seams
0-4, 6 and 10), but not for the remaining five seams. -/
theorem C6_anti_parallel_amended (L W H gap : ℚ) :
    antiParallel (seamAt L W H gap 0).1.out (seamAt L W H gap 0).2.out ∧
    antiParallel (seamAt L W H gap 1).1.out (seamAt L W H gap 1).2.out ∧
    antiParallel (seamAt L W H gap 2).1.out (seamAt L W H gap 2).2.out ∧
    antiParallel (seamAt L W H gap 3).1.out (seamAt L W H gap 3).2.out ∧
    antiParallel (seamAt L W H gap 4).1.out (seamAt L W H gap 4).2.out ∧
    antiParallel (seamAt L W H gap 6).1.out (seamAt L W H gap 6).2.out ∧
    antiParallel (seamAt L W H gap 10).1.out (seamAt L W H gap 10).2.out ∧
    ¬ antiParallel (seamAt L W H gap 5).1.out (seamAt L W H gap 5).2.out ∧
    ¬ antiParallel (seamAt L W H gap 7).1.out (seamAt L W H gap 7).2.out ∧
    ¬ antiParallel (seamAt L W H gap 8).1.out (seamAt L W H gap 8).2.out ∧
    ¬ antiParallel (seamAt L W H gap 9).1.out (seamAt L W H gap 9).2.out ∧
    ¬ antiParallel (seamAt L W H gap 11).1.out (seamAt L W H gap 11).2.out := by
  refine ⟨?_, ?_, ?_, ?_, ?_, ?_, ?_, ?_, ?_, ?_, ?_, ?_⟩
  · show antiParallel ((1 : ℚ), (0 : ℚ)) ((-1 : ℚ), (0 : ℚ)); norm_num [antiParallel]
  · show antiParallel ((1 : ℚ), (0 : ℚ)) ((-1 : ℚ), (0 : ℚ)); norm_num [antiParallel]
  · show antiParallel ((1 : ℚ), (0 : ℚ)) ((-1 : ℚ), (0 : ℚ)); norm_num [antiParallel]
  · show antiParallel ((1 : ℚ), (0 : ℚ)) ((-1 : ℚ), (0 : ℚ)); norm_num [antiParallel]
  · show antiParallel ((0 : ℚ), (1 : ℚ)) ((0 : ℚ), (-1 : ℚ)); norm_num [antiParallel]
  · show antiParallel ((0 : ℚ), (1 : ℚ)) ((0 : ℚ), (-1 : ℚ)); norm_num [antiParallel]
  · show antiParallel ((0 : ℚ), (-1 : ℚ)) ((0 : ℚ), (1 : ℚ)); norm_num [antiParallel]
  · show ¬ antiParallel ((1 : ℚ), (0 : ℚ)) ((0 : ℚ), (1 : ℚ)); norm_num [antiParallel]
  · show ¬ antiParallel ((-1 : ℚ), (0 : ℚ)) ((0 : ℚ), (1 : ℚ)); norm_num [antiParallel]
  · show ¬ antiParallel ((0 : ℚ), (1 : ℚ)) ((0 : ℚ), (1 : ℚ)); norm_num [antiParallel]
  · show ¬ antiParallel ((1 : ℚ), (0 : ℚ)) ((0 : ℚ), (1 : ℚ)); norm_num [antiParallel]
  · show ¬ antiParallel ((-1 : ℚ), (0 : ℚ)) ((0 : ℚ), (1 : ℚ)); norm_num [antiParallel]

/-! ### Parameter store lemmas -/

theorem headD_mem {names : List String} (hne : names ≠ []) : names.headD "" ∈ names := by
  cases names with
  | nil => exact absurd rfl hne
  | cons a as => simp

theorem itemByName_append_of_none {s : ParamStore} {n : String} (t : ParamStore)
    (h : itemByName s n = none) : itemByName (s ++ t) n = itemByName t n := by
  induction s with
  | nil => rfl
  | cons a rest ih =>
      obtain ⟨k, v⟩ := a
      by_cases hk : k = n
      · rw [itemByName, if_pos hk] at h
        exact absurd h (by simp)
      · rw [itemByName, if_neg hk] at h
        rw [List.cons_append, itemByName, if_neg hk]
        exact ih h

theorem itemByName_append_of_some {s : ParamStore} {n : String} {v : ℚ} (t : ParamStore)
    (h : itemByName s n = some v) : itemByName (s ++ t) n = some v := by
  induction s with
  | nil => exact absurd h (by simp [itemByName])
  | cons a rest ih =>
      obtain ⟨k, w⟩ := a
      by_cases hk : k = n
      · rw [itemByName, if_pos hk] at h
        rw [List.cons_append, itemByName, if_pos hk]
        exact h
      · rw [itemByName, if_neg hk] at h
        rw [List.cons_append, itemByName, if_neg hk]
        exact ih h

theorem find_first_eq_none {s : ParamStore} {names : List String} :
    find_first s names = none ↔ noAlias s names := by
  induction names with
  | nil => simp [find_first, noAlias]
  | cons n rest ih =>
      rw [find_first]
      cases h : itemByName s n with
      | some v =>
          simp only [noAlias, List.mem_cons]
          constructor
          · intro hc; exact absurd hc (by simp)
          · intro hc
            exact absurd (hc n (Or.inl rfl)) (by rw [h]; simp)
      | none =>
          rw [ih]
          simp only [noAlias, List.mem_cons]
          constructor
          · intro hc m hm
            rcases hm with hm | hm
            · rw [hm]; exact h
            · exact hc m hm
          · intro hc m hm
            exact hc m (Or.inr hm)

theorem find_first_append (s t : ParamStore) (names : List String) (h : noAlias t names) :
    find_first (s ++ t) names = find_first s names := by
  induction names with
  | nil => rfl
  | cons n rest ih =>
      have hn : itemByName t n = none := h n (by simp)
      rw [find_first, find_first]
      cases hs : itemByName s n with
      | some v => rw [itemByName_append_of_some t hs]
      | none =>
          rw [itemByName_append_of_none t hs, hn]
          exact ih (fun m hm => h m (List.mem_cons_of_mem _ hm))

theorem noAlias_nil (names : List String) : noAlias [] names := by
  intro m _
  rfl

theorem noAlias_append {t1 t2 : ParamStore} {names : List String}
    (h1 : noAlias t1 names) (h2 : noAlias t2 names) : noAlias (t1 ++ t2) names := by
  intro m hm
  rw [itemByName_append_of_none t2 (h1 m hm)]
  exact h2 m hm

theorem noAlias_of_keys {u : ParamStore} {fa : String}
    (hp : ∀ m, itemByName u m ≠ none → m = fa) {N : List String} (hfa : fa ∉ N) :
    noAlias u N := by
  intro m hm
  by_contra hne
  rw [hp m hne] at hm
  exact hfa hm

theorem gocl_absent {s : ParamStore} {names : List String} {d : ℚ}
    (hne : names ≠ []) (h : noAlias s names) :
    get_or_create_len s names d =
      (mm_to_internal d, names.headD "",
        s ++ [(names.headD "", mm_to_internal d)]) := by
  rw [get_or_create_len, find_first_eq_none.mpr h]

theorem gocl_store_ext (s : ParamStore) (names : List String) (d : ℚ) :
    ∃ u, (get_or_create_len s names d).2.2 = s ++ u ∧
      ∀ m, itemByName u m ≠ none → m = names.headD "" := by
  rw [get_or_create_len]
  cases hf : find_first s names with
  | none =>
      exact ⟨[(names.headD "", mm_to_internal d)], rfl, by
        intro m hm
        rw [itemByName] at hm
        by_cases hk : names.headD "" = m
        · rw [hk]
        · rw [if_neg hk] at hm
          exact absurd rfl hm⟩
  | some p =>
      exact ⟨[], by simp, by
        intro m hm
        exact absurd rfl hm⟩

theorem gocl_later (s : ParamStore) (t : ParamStore) (names : List String) (d : ℚ)
    (hne : names ≠ []) (ht : noAlias t names) :
    get_or_create_len ((get_or_create_len s names d).2.2 ++ t) names d =
      ((get_or_create_len s names d).1, (get_or_create_len s names d).2.1,
        (get_or_create_len s names d).2.2 ++ t) := by
  cases hf : find_first s names with
  | some p =>
      obtain ⟨v, n⟩ := p
      have hself : get_or_create_len s names d = (v, n, s) := by
        rw [get_or_create_len, hf]
      rw [hself]
      rw [get_or_create_len, find_first_append s t names ht, hf]
  | none =>
      have habs : noAlias s names := find_first_eq_none.mp hf
      have hself := gocl_absent (d := d) hne habs
      rw [hself]
      obtain ⟨n0, rest, rfl⟩ : ∃ n0 rest, names = n0 :: rest := by
        cases names with
        | nil => exact absurd rfl hne
        | cons a as => exact ⟨a, as, rfl⟩
      have hn0 : (n0 :: rest).headD "" = n0 := rfl
      rw [hn0]
      have hlook : itemByName ((s ++ [(n0, mm_to_internal d)]) ++ t) n0
          = some (mm_to_internal d) := by
        apply itemByName_append_of_some
        rw [itemByName_append_of_none _ (habs n0 (by simp))]
        simp [itemByName]
      rw [get_or_create_len, find_first, hlook]

theorem persist_lookup {s : ParamStore} {names : List String} {d : ℚ} (t : ParamStore)
    (hne : names ≠ []) (habs : noAlias s names) :
    itemByName ((get_or_create_len s names d).2.2 ++ t) (names.headD "")
      = some (mm_to_internal d) := by
  rw [gocl_absent hne habs]
  apply itemByName_append_of_some
  rw [itemByName_append_of_none _ (habs _ (headD_mem hne))]
  simp [itemByName]

theorem runParams_expand (s : ParamStore) :
    runParams s = ⟨(get_or_create_len s namesLength 100).1,
      (get_or_create_len (store1 s) namesWidth 60).1,
      (get_or_create_len (store2 s) namesHeight 60).1,
      (get_or_create_len (store3 s) namesThickness 3).1,
      (get_or_create_len (store4 s) namesKerf (1 / 10)).1,
      (get_or_create_len s namesLength 100).2.1,
      (get_or_create_len (store1 s) namesWidth 60).2.1,
      (get_or_create_len (store2 s) namesHeight 60).2.1,
      (get_or_create_len (store3 s) namesThickness 3).2.1,
      (get_or_create_len (store4 s) namesKerf (1 / 10)).2.1,
      store5 s⟩ := rfl

/-! ### Claim C9 -/

/-- Claim C9: for every parameter key among Length, Width, Height, Thickness,
Kerf with no alias present in the parameter source, the run applies the
documented default (100, 60, 60, 3, 0.10 mm, read back in internal units)
and persists it under the key's first alias; consequently a second run on
the resulting parameter source reads identical values, leaves the source
unchanged, and produces identical panel rectangles. -/
theorem C9_param_defaults (s0 : ParamStore) :
    (∀ k : Fin 5, noAlias s0 (keyAliases k) →
        keyValue k (runParams s0) = mm_to_internal (keyDefault k) ∧
        itemByName (runParams s0).store ((keyAliases k).headD "")
          = some (mm_to_internal (keyDefault k))) ∧
    runParams (runParams s0).store = runParams s0 ∧
    runPanels (runParams (runParams s0).store) = runPanels (runParams s0) := by
  obtain ⟨u1, hu1, hp1⟩ := gocl_store_ext s0 namesLength 100
  obtain ⟨u2, hu2, hp2⟩ := gocl_store_ext (store1 s0) namesWidth 60
  obtain ⟨u3, hu3, hp3⟩ := gocl_store_ext (store2 s0) namesHeight 60
  obtain ⟨u4, hu4, hp4⟩ := gocl_store_ext (store3 s0) namesThickness 3
  obtain ⟨u5, hu5, hp5⟩ := gocl_store_ext (store4 s0) namesKerf (1 / 10)
  have hu1S : store1 s0 = s0 ++ u1 := hu1
  have hu2S : store2 s0 = store1 s0 ++ u2 := hu2
  have hu3S : store3 s0 = store2 s0 ++ u3 := hu3
  have hu4S : store4 s0 = store3 s0 ++ u4 := hu4
  have hu5S : store5 s0 = store4 s0 ++ u5 := hu5
  have hd1 : store5 s0 = store1 s0 ++ (u2 ++ (u3 ++ (u4 ++ u5))) := by
    rw [hu5S, hu4S, hu3S, hu2S]
    simp [List.append_assoc]
  have hd2 : store5 s0 = store2 s0 ++ (u3 ++ (u4 ++ u5)) := by
    rw [hu5S, hu4S, hu3S]
    simp [List.append_assoc]
  have hd3 : store5 s0 = store3 s0 ++ (u4 ++ u5) := by
    rw [hu5S, hu4S]
    simp [List.append_assoc]
  have hd4 : store5 s0 = store4 s0 ++ u5 := hu5S
  have hd5 : store5 s0 = store5 s0 ++ [] := by simp
  have ht1 : noAlias (u2 ++ (u3 ++ (u4 ++ u5))) namesLength :=
    noAlias_append (noAlias_of_keys hp2 (by decide))
      (noAlias_append (noAlias_of_keys hp3 (by decide))
        (noAlias_append (noAlias_of_keys hp4 (by decide))
          (noAlias_of_keys hp5 (by decide))))
  have ht2 : noAlias (u3 ++ (u4 ++ u5)) namesWidth :=
    noAlias_append (noAlias_of_keys hp3 (by decide))
      (noAlias_append (noAlias_of_keys hp4 (by decide))
        (noAlias_of_keys hp5 (by decide)))
  have ht3 : noAlias (u4 ++ u5) namesHeight :=
    noAlias_append (noAlias_of_keys hp4 (by decide)) (noAlias_of_keys hp5 (by decide))
  have ht4 : noAlias u5 namesThickness := noAlias_of_keys hp5 (by decide)
  have st1 : get_or_create_len (store5 s0) namesLength 100
      = ((get_or_create_len s0 namesLength 100).1,
         (get_or_create_len s0 namesLength 100).2.1, store5 s0) := by
    rw [hd1]
    exact gocl_later s0 _ namesLength 100 (by decide) ht1
  have st2 : get_or_create_len (store5 s0) namesWidth 60
      = ((get_or_create_len (store1 s0) namesWidth 60).1,
         (get_or_create_len (store1 s0) namesWidth 60).2.1, store5 s0) := by
    rw [hd2]
    exact gocl_later (store1 s0) _ namesWidth 60 (by decide) ht2
  have st3 : get_or_create_len (store5 s0) namesHeight 60
      = ((get_or_create_len (store2 s0) namesHeight 60).1,
         (get_or_create_len (store2 s0) namesHeight 60).2.1, store5 s0) := by
    rw [hd3]
    exact gocl_later (store2 s0) _ namesHeight 60 (by decide) ht3
  have st4 : get_or_create_len (store5 s0) namesThickness 3
      = ((get_or_create_len (store3 s0) namesThickness 3).1,
         (get_or_create_len (store3 s0) namesThickness 3).2.1, store5 s0) := by
    rw [hd4]
    exact gocl_later (store3 s0) _ namesThickness 3 (by decide) ht4
  have st5 : get_or_create_len (store5 s0) namesKerf (1 / 10)
      = ((get_or_create_len (store4 s0) namesKerf (1 / 10)).1,
         (get_or_create_len (store4 s0) namesKerf (1 / 10)).2.1, store5 s0) := by
    rw [hd5]
    exact gocl_later (store4 s0) _ namesKerf (1 / 10) (by decide) (noAlias_nil _)
  have hidem : runParams (runParams s0).store = runParams s0 := by
    have hstore : (runParams s0).store = store5 s0 := rfl
    rw [hstore, runParams_expand (store5 s0), runParams_expand s0]
    have hs1A : store1 (store5 s0) = store5 s0 := by rw [store1, st1]
    have hs2A : store2 (store5 s0) = store5 s0 := by rw [store2, hs1A, st2]
    have hs3A : store3 (store5 s0) = store5 s0 := by rw [store3, hs2A, st3]
    have hs4A : store4 (store5 s0) = store5 s0 := by rw [store4, hs3A, st4]
    have hs5A : store5 (store5 s0) = store5 s0 := by rw [store5, hs4A, st5]
    rw [hs1A, hs2A, hs3A, hs4A, hs5A, st1, st2, st3, st4, st5]
  refine ⟨?_, hidem, by rw [hidem]⟩
  intro k habs
  fin_cases k
  · have habsL : noAlias s0 namesLength := habs
    refine ⟨?_, ?_⟩
    · show (get_or_create_len s0 namesLength 100).1 = mm_to_internal 100
      rw [gocl_absent (by decide) habsL]
    · show itemByName (store5 s0) (namesLength.headD "") = some (mm_to_internal 100)
      rw [hd1]
      exact persist_lookup _ (by decide) habsL
  · have habsW : noAlias s0 namesWidth := habs
    have habs1 : noAlias (store1 s0) namesWidth := by
      rw [hu1S]
      exact noAlias_append habsW (noAlias_of_keys hp1 (by decide))
    refine ⟨?_, ?_⟩
    · show (get_or_create_len (store1 s0) namesWidth 60).1 = mm_to_internal 60
      rw [gocl_absent (by decide) habs1]
    · show itemByName (store5 s0) (namesWidth.headD "") = some (mm_to_internal 60)
      rw [hd2]
      exact persist_lookup _ (by decide) habs1
  · have habsH : noAlias s0 namesHeight := habs
    have habs2 : noAlias (store2 s0) namesHeight := by
      rw [hu2S, hu1S]
      exact noAlias_append (noAlias_append habsH (noAlias_of_keys hp1 (by decide)))
        (noAlias_of_keys hp2 (by decide))
    refine ⟨?_, ?_⟩
    · show (get_or_create_len (store2 s0) namesHeight 60).1 = mm_to_internal 60
      rw [gocl_absent (by decide) habs2]
    · show itemByName (store5 s0) (namesHeight.headD "") = some (mm_to_internal 60)
      rw [hd3]
      exact persist_lookup _ (by decide) habs2
  · have habsT : noAlias s0 namesThickness := habs
    have habs3 : noAlias (store3 s0) namesThickness := by
      rw [hu3S, hu2S, hu1S]
      exact noAlias_append (noAlias_append
        (noAlias_append habsT (noAlias_of_keys hp1 (by decide)))
          (noAlias_of_keys hp2 (by decide))) (noAlias_of_keys hp3 (by decide))
    refine ⟨?_, ?_⟩
    · show (get_or_create_len (store3 s0) namesThickness 3).1 = mm_to_internal 3
      rw [gocl_absent (by decide) habs3]
    · show itemByName (store5 s0) (namesThickness.headD "") = some (mm_to_internal 3)
      rw [hd4]
      exact persist_lookup _ (by decide) habs3
  · have habsK : noAlias s0 namesKerf := habs
    have habs4 : noAlias (store4 s0) namesKerf := by
      rw [hu4S, hu3S, hu2S, hu1S]
      exact noAlias_append (noAlias_append (noAlias_append
        (noAlias_append habsK (noAlias_of_keys hp1 (by decide)))
          (noAlias_of_keys hp2 (by decide))) (noAlias_of_keys hp3 (by decide)))
            (noAlias_of_keys hp4 (by decide))
    refine ⟨?_, ?_⟩
    · show (get_or_create_len (store4 s0) namesKerf (1 / 10)).1 = mm_to_internal (1 / 10)
      rw [gocl_absent (by decide) habs4]
    · show itemByName (store5 s0) (namesKerf.headD "") = some (mm_to_internal (1 / 10))
      rw [hd5]
      exact persist_lookup _ (by decide) habs4

/-- Witness for C9: the empty parameter source has every key absent; the run
reads the Length default 100 mm (10 in internal cm units) and persists it
under "CtrlBoxLength", and a second run is the identity. -/
theorem C9_param_defaults_witness :
    noAlias [] namesLength ∧
      keyValue 0 (runParams []) = mm_to_internal 100 ∧
      itemByName (runParams []).store ((keyAliases 0).headD "")
        = some (mm_to_internal 100) ∧
      runParams (runParams []).store = runParams [] := by
  have habs : noAlias [] namesLength := noAlias_nil _
  refine ⟨habs, ?_, ?_, (C9_param_defaults []).2.1⟩
  · exact ((C9_param_defaults []).1 0 habs).1
  · exact ((C9_param_defaults []).1 0 habs).2

end BoxMaker
